import Mathlib

set_option maxRecDepth 1000000
set_option maxHeartbeats 4000000

/-!
Verification of the Voter Record Extraction Engine
(`final_voter_processor.py`, class `FinalVoterDataProcessor`).

The engine is shallowly embedded below.  Strings are processed as `List Char`
(one entry per Unicode code point, matching Python's `str` indexing); the
`String` wrappers mirror the Python method signatures.  The Python regular
expressions used by the engine are fixed literal patterns; each one is
embedded as a specialised scanner implementing the exact backtracking
behaviour of that pattern (leftmost non-overlapping matches, greedy/lazy
quantifiers, ordered alternation, lookahead).

The external library call `UnicodeIndicTransliterator.transliterate(w,"hi","en")`
is not part of this repository; it is passed in as an explicit function
parameter `ext : String → String` wherever the code calls it.
-/

namespace VoterEngine

/-- Python `\s` / `str.strip()` whitespace, by code point.  Covers the ASCII
whitespace characters and the Unicode whitespace code points Python treats as
whitespace. -/
def isPySpace (c : Char) : Bool :=
  c = ' ' ∨ c = '\t' ∨ c = '\n' ∨ c = '\r' ∨ c.val = 11 ∨ c.val = 12 ∨
  (28 ≤ c.val ∧ c.val ≤ 31) ∨ c.val = 133 ∨ c.val = 160 ∨ c.val = 0x1680 ∨
  (0x2000 ≤ c.val ∧ c.val ≤ 0x200a) ∨ c.val = 0x2028 ∨ c.val = 0x2029 ∨
  c.val = 0x202f ∨ c.val = 0x205f ∨ c.val = 0x3000

/-- Python `\d` / `str.isdigit` decimal digits, restricted to the two script
ranges occurring in the engine's inputs: ASCII `0-9` and Devanagari `०-९`
(U+0966..U+096F). -/
def isPyDigit (c : Char) : Bool :=
  ('0' ≤ c ∧ c ≤ '9') ∨ (0x966 ≤ c.val ∧ c.val ≤ 0x96f)

/-- Decimal value of a digit accepted by `isPyDigit`. -/
def pyDigitVal (c : Char) : Nat :=
  if '0' ≤ c ∧ c ≤ '9' then c.toNat - '0'.toNat else c.toNat - 0x966

/-- Python `int` on a digit string (as produced by the `\d{1,3}` age group). -/
def pyStrToNat (s : String) : Nat :=
  s.data.foldl (fun acc c => 10 * acc + pyDigitVal c) 0

/-- A code point of the Devanagari block U+0900..U+097F. -/
def isDevanagari (c : Char) : Bool :=
  0x900 ≤ c.val ∧ c.val ≤ 0x97f

/-- ASCII letter. -/
def isAsciiAlpha (c : Char) : Bool :=
  ('A' ≤ c ∧ c ≤ 'Z') ∨ ('a' ≤ c ∧ c ≤ 'z')

/-- Does `k` occur as a contiguous substring of `s`? -/
def occursIn (k : List Char) : List Char → Bool
  | [] => k.isPrefixOf []
  | c :: rest => k.isPrefixOf (c :: rest) || occursIn k rest

/-- Python `str.replace(k, v)`, fuel-indexed: replace every non-overlapping
occurrence of `k`, scanning left to right and continuing after each
replacement.  Every step consumes at least one character, so any fuel of at
least the string length is exact; exhausted fuel returns the remaining
suffix unchanged. -/
def replaceAllF (k v : List Char) : Nat → List Char → List Char
  | 0, s => s
  | _ + 1, [] => []
  | fuel + 1, c :: rest =>
    if k ≠ [] ∧ k.isPrefixOf (c :: rest) then
      v ++ replaceAllF k v fuel ((c :: rest).drop k.length)
    else
      c :: replaceAllF k v fuel rest

/-- Python `str.replace(k, v)`. -/
def replaceAll (k v s : List Char) : List Char :=
  replaceAllF k v (s.length + 1) s

/-- Apply a substitution table entry by entry (the Python
`for k, v in table.items(): s = s.replace(k, v)` loop). -/
def applyTable (table : List (String × String)) (s : List Char) : List Char :=
  table.foldl (fun acc p => replaceAll p.1.data p.2.data acc) s

/-- If the next characters spell `(cid:` followed by one or more digits and
`)`, return the remainder after the closing parenthesis.  This is exactly a
match of the Python regex `\(cid:\d+\)` anchored at the current position. -/
def matchCidToken (s : List Char) : Option (List Char) :=
  match s with
  | '(' :: 'c' :: 'i' :: 'd' :: ':' :: rest =>
    let digits := rest.takeWhile isPyDigit
    let rest' := rest.dropWhile isPyDigit
    if digits = [] then none
    else
      match rest' with
      | ')' :: tail => some tail
      | _ => none
  | _ => none

/-- Python `re.sub(r'\(cid:\d+\)', '', s)`, fuel-indexed: delete every
leftmost non-overlapping `(cid:<digits>)` token, resuming the scan after
each match. -/
def removeCidTokensF : Nat → List Char → List Char
  | 0, s => s
  | _ + 1, [] => []
  | fuel + 1, c :: rest =>
    match matchCidToken (c :: rest) with
    | some tail => removeCidTokensF fuel tail
    | none => c :: removeCidTokensF fuel rest

/-- Python `re.sub(r'\(cid:\d+\)', '', s)`. -/
def removeCidTokens (s : List Char) : List Char :=
  removeCidTokensF (s.length + 1) s

/-- Python `re.sub(r'\s+', ' ', s)`: collapse every maximal whitespace run
to a single ASCII space.  The flag records whether the previous character
was whitespace (i.e. whether we are inside a run whose space has already
been emitted). -/
def collapseWsGo : Bool → List Char → List Char
  | _, [] => []
  | prevSpace, c :: rest =>
    if isPySpace c then
      if prevSpace then collapseWsGo true rest
      else ' ' :: collapseWsGo true rest
    else c :: collapseWsGo false rest

/-- Python `re.sub(r'\s+', ' ', s)`. -/
def collapseWsRuns (s : List Char) : List Char :=
  collapseWsGo false s

/-- One step of `rightStrip`: re-attach `c` in front of the already-stripped
tail `r` (dropping `c` as well when the stripped tail is empty and `c` is
whitespace). -/
def rightStripStep (c : Char) (r : List Char) : List Char :=
  match r with
  | [] => if isPySpace c then [] else [c]
  | _ => c :: r

/-- Drop the trailing whitespace run. -/
def rightStrip : List Char → List Char
  | [] => []
  | c :: rest => rightStripStep c (rightStrip rest)

/-- Python `str.strip()`: drop whitespace from both ends. -/
def stripEnds (s : List Char) : List Char :=
  rightStrip (s.dropWhile isPySpace)

/-- `re.sub(r'\s+', ' ', s).strip()` — the normalisation used throughout the
engine. -/
def normalizeWs (s : List Char) : List Char :=
  stripEnds (collapseWsRuns s)

/-- The `cid_map` dictionary of `FinalVoterDataProcessor.__init__`, in Python
dict iteration order.  The source literal lists `(cid:159)` and `(cid:219)`
twice; as in Python, the later value wins and the key keeps its first
position. -/
def cidMap : List (String × String) :=
  [("(cid:147)", "क"), ("(cid:130)", "ा"), ("(cid:154)", "र"), ("(cid:3)", " "),
   ("(cid:152)", "म"), ("(cid:157)", "न"), ("(cid:545)", "ा"), ("(cid:91)", "ी"),
   ("(cid:133)", "व"), ("(cid:128)", "त"), ("(cid:155)", "ल"), ("(cid:547)", "य"),
   ("(cid:15)", "-"), ("(cid:20)", "२"), ("(cid:18)", "०"), ("(cid:21)", "३"),
   ("(cid:10)", "("), ("(cid:11)", ")"), ("(cid:148)", "प"), ("(cid:471)", "ू"),
   ("(cid:468)", "ज"), ("(cid:159)", "श"), ("(cid:219)", "ं"), ("(cid:289)", "न"),
   ("(cid:160)", "स"), ("(cid:201)", "ख"), ("(cid:232)", "स"), ("(cid:272)", "श"),
   ("(cid:230)", "च"), ("(cid:162)", "क"), ("(cid:92)", "अ"), ("(cid:93)", "आ"),
   ("(cid:94)", "इ"), ("(cid:95)", "ई"), ("(cid:96)", "उ"), ("(cid:135)", "ऊ"),
   ("(cid:136)", "ऋ"), ("(cid:139)", "ठ"), ("(cid:144)", "थ"), ("(cid:145)", "द"),
   ("(cid:146)", "ध"), ("(cid:150)", "ब"), ("(cid:153)", "ल"), ("(cid:158)", "व"),
   ("(cid:161)", "ह"), ("(cid:200)", "क्ष"), ("(cid:202)", "छ"), ("(cid:215)", "त"),
   ("(cid:220)", "प"), ("(cid:222)", "ब"), ("(cid:224)", "म"), ("(cid:227)", "ल"),
   ("(cid:229)", "श्"), ("(cid:231)", "ष"), ("(cid:234)", "क"), ("(cid:282)", "ट"),
   ("(cid:287)", "य"), ("(cid:292)", "प्र"), ("(cid:294)", "ब्र"), ("(cid:302)", "ट"),
   ("(cid:419)", "न"), ("(cid:464)", "र"), ("(cid:467)", "न"), ("(cid:469)", "ु"),
   ("(cid:509)", "नि"), ("(cid:510)", "बि"), ("(cid:511)", "दि"), ("(cid:546)", "य"),
   ("(cid:554)", "ह"), ("(cid:559)", "े"), ("(cid:560)", "है"), ("(cid:566)", "र्व"),
   ("(cid:581)", "ें"), ("(cid:591)", "न्"), ("(cid:622)", "श"), ("(cid:668)", "ा"),
   ("(cid:871)", "सि"), ("(cid:873)", "श्"), ("(cid:874)", "उ"), ("(cid:876)", "ध")]

/-- The `broken_char_fixes` dictionary of `clean_cid_text`, in Python dict
iteration order. -/
def brokenCharFixes : List (String × String) :=
  [("ाु", "ाु"), ("ा ु", "ाु"), ("क ा", "का"), ("र ा", "रा"), ("म ा", "मा"),
   ("न ा", "ना"), ("त ा", "ता"), ("स ा", "सा"), ("ल ा", "ला"), ("प ा", "पा"),
   ("द ा", "दा"), ("ब ा", "बा"), ("ग ा", "गा"), ("ज ा", "जा"), ("च ा", "चा"),
   ("व ा", "वा"), ("श ा", "शा"), ("ह ा", "हा"), ("य ा", "या"), ("क ाु", "काु"),
   ("र ाज", "राज"), ("म ार", "मार"), ("न ाम", "नाम"), ("काु", "काु"),
   ("राजकाुमार", "राजकुमार"), ("राजक ाुमार", "राजकुमार"), ("चयाम", "श्याम"),
   ("प्रक ाा", "प्रकाश"), ("प्रकााश", "प्रकाश"), ("जयप्रक ाा", "जयप्रकाश"),
   ("जयप्रकााश", "जयप्रकाश"), ("मक ा", "मका"), ("कउन", "कुन"), ("कुनता", "कुन्ता"),
   ("बागू", "बाबू"), ("कशचचयन", "कृष्णा"), ("कशजचचयन", "कृष्णा"), ("ठाक ाुर", "ठाकुर"),
   ("ठाकाुर", "ठाकुर"), ("मुक ाुल", "मुकुल"), ("मुकाुल", "मुकुल"),
   ("नेदप्रकाश", "नेदप्रकाश"), ("विनित", "विनीत"), ("सिसं", "सिंह"), ("सिलं", "सिंह"),
   ("नन", "नि"), ("सि", "सि"), ("श ्याम", "श्याम"), ("ग िता", "गीता")]

/-- `FinalVoterDataProcessor.clean_cid_text`: CID-code substitution, removal
of residual `(cid:<digits>)` tokens, broken-sequence fixes, whitespace
normalisation.  `None`/empty input returns the empty string. -/
def clean_cid_text (text : String) : String :=
  if text = "" then ""
  else
    ⟨normalizeWs (applyTable brokenCharFixes (removeCidTokens
      (applyTable cidMap text.data)))⟩

/-!
## Record Segmenter

`extract_voters_from_line` scans a cleaned line with

  `voter_pattern = (\d+)(?:[०-९]*)?\s+([^\d]+?)\s+(पु|म|स्त्री|पुरुष|फ)\s+(\d{1,3})(?=\s|$|\d)`

via `re.finditer`.  The scanner below implements exactly that pattern's
backtracking semantics:

* `(\d+)(?:[०-९]*)?` — after the leading greedy digit run, every backtracking
  split re-joins at the end of the maximal digit run (shorter `\d+` choices
  leave a digit in front of `\s+`, which fails, or hand the rest of the run
  to `[०-९]*`, resuming at the same place), so the group is the maximal
  digit run and the scan continues after it;
* the first `\s+` is greedy and backtracks outer-to-inner against the lazy
  `[^\d]+?` middle: whitespace widths are tried from maximal down to 1, and
  for each width the middle grows one character at a time (it may not
  contain a digit);
* the `\s+` before the gender marker and before the age never shrink below
  the maximal run, because no alternative of the gender group and no digit
  is whitespace;
* the gender alternation is tried in source order, falling through to later
  alternatives when the rest of the pattern fails;
* the greedy `(\d{1,3})` age group backtracks against the zero-width
  lookahead `(?=\s|$|\d)`; the characters of a match end at the age group,
  so `re.finditer` resumes immediately after it.
-/

/-- One match of `voter_pattern`: the four capture groups. -/
structure RawMatch where
  srNo : String
  middle : String
  gender : String
  ageStr : String
  deriving DecidableEq, Repr

/-- The gender alternation `(पु|म|स्त्री|पुरुष|फ)` in source order. -/
def genderAlternatives : List String :=
  ["पु", "म", "स्त्री", "पुरुष", "फ"]

/-- Match `\s+(\d{1,3})(?=\s|$|\d)` at `s`: returns the age group and the
remainder of the line after the match (the lookahead consumes nothing). -/
def matchAgeTail (s : List Char) : Option (List Char × List Char) :=
  let sp := s.takeWhile isPySpace
  let r := s.dropWhile isPySpace
  if sp = [] then none
  else
    let ds := r.takeWhile isPyDigit
    let rest := r.dropWhile isPyDigit
    if ds = [] then none
    else if 3 < ds.length then
      -- greedy: three digits, lookahead sees the fourth digit
      some (ds.take 3, ds.drop 3 ++ rest)
    else
      match rest with
      | [] => some (ds, [])
      | c :: _ =>
        if isPySpace c then some (ds, rest)
        else if 2 ≤ ds.length then
          -- lookahead fails after the full run; drop one digit so the
          -- lookahead sees that digit
          some (ds.take (ds.length - 1), ds.drop (ds.length - 1) ++ rest)
        else none

/-- Try the gender alternatives in order at `s` (after the middle's
whitespace); each alternative is committed only if the rest of the pattern
(`\s+(\d{1,3})(?=\s|$|\d)`) succeeds after it. -/
def tryGenderList : List String → List Char → Option (String × List Char × List Char)
  | [], _ => none
  | g :: gs, s =>
    if g.data.isPrefixOf s then
      match matchAgeTail (s.drop g.data.length) with
      | some (age, rest) => some (g, age, rest)
      | none => tryGenderList gs s
    else tryGenderList gs s

/-- Match `\s+(пу|...)\s+(\d{1,3})(?=...)` — the tail of `voter_pattern`
after the lazy middle group — at `s`.  The leading `\s+` is the maximal
whitespace run (no gender alternative starts with whitespace). -/
def matchTail (s : List Char) : Option (String × String × List Char) :=
  let sp := s.takeWhile isPySpace
  let r := s.dropWhile isPySpace
  if sp = [] then none
  else
    match tryGenderList genderAlternatives r with
    | some (g, age, rest) => some (g, ⟨age⟩, rest)
    | none => none

/-- Grow the lazy `[^\d]+?` middle one character at a time, trying the tail
of the pattern after each extension.  `acc` is the middle read so far (in
reverse); the middle may not contain a digit. -/
def tryMiddleFrom (acc : List Char) : List Char → Option (List Char × String × String × List Char)
  | [] => none
  | c :: rest =>
    if isPyDigit c then none
    else
      match matchTail rest with
      | some (g, age, after) => some ((acc ++ [c]), g, age, after)
      | none => tryMiddleFrom (acc ++ [c]) rest

/-- Try whitespace widths for the first `\s+` from `w` down to 1 (greedy
backtracking); `afterDigits` is the suffix following the serial-number
digit run. -/
def tryWsWidth (afterDigits : List Char) : Nat → Option (List Char × String × String × List Char)
  | 0 => none
  | w + 1 =>
    match tryMiddleFrom [] (afterDigits.drop (w + 1)) with
    | some res => some res
    | none => tryWsWidth afterDigits w

/-- Try to match `voter_pattern` anchored at the head of `s`.  On success
returns the match and the remainder of the line after it. -/
def matchVoterAt (s : List Char) : Option (RawMatch × List Char) :=
  let ds := s.takeWhile isPyDigit
  let r := s.dropWhile isPyDigit
  if ds = [] then none
  else
    let wmax := (r.takeWhile isPySpace).length
    match tryWsWidth r wmax with
    | some (mid, g, age, after) =>
      some ({ srNo := ⟨ds⟩, middle := ⟨mid⟩, gender := g, ageStr := age }, after)
    | none => none

/-- `re.finditer(voter_pattern, line)`: scan start positions left to right,
emitting leftmost non-overlapping matches and resuming after each match.
Each fuel unit advances at least one character. -/
def finditerVoterF : Nat → List Char → List RawMatch
  | 0, _ => []
  | _ + 1, [] => []
  | fuel + 1, c :: rest =>
    match matchVoterAt (c :: rest) with
    | some (m, after) => m :: finditerVoterF fuel after
    | none => finditerVoterF fuel rest

/-- All matches of `voter_pattern` in a line. -/
def finditerVoter (line : String) : List RawMatch :=
  finditerVoterF (line.data.length + 1) line.data

/-!
## Transliterator

`transliterate_name` / `_transliterate_with_indic_nlp` / `_clean_itrans_output`.
The external library call `UnicodeIndicTransliterator.transliterate(w, "hi", "en")`
is the parameter `ext`.
-/

/-- Python `str.lower`, restricted to ASCII case (the cased characters that
reach the engine's lowering steps are ASCII; Devanagari is uncased for
Python as well). -/
def asciiLower (c : Char) : Char :=
  if 'A' ≤ c ∧ c ≤ 'Z' then Char.ofNat (c.toNat + 32) else c

/-- Python `str.upper`, restricted to ASCII case. -/
def asciiUpper (c : Char) : Char :=
  if 'a' ≤ c ∧ c ≤ 'z' then Char.ofNat (c.toNat - 32) else c

/-- Lowercase a string (Python `str.lower`). -/
def lowerStr (s : String) : String :=
  ⟨s.data.map asciiLower⟩

/-- Python `str.title`: a cased letter is uppercased after a non-cased
character and lowercased after a cased one.  Cased characters here are the
ASCII letters (Devanagari and the digits are uncased). -/
def pyTitleGo : Bool → List Char → List Char
  | _, [] => []
  | prevCased, c :: rest =>
    if isAsciiAlpha c then
      (if prevCased then asciiLower c else asciiUpper c) :: pyTitleGo true rest
    else
      c :: pyTitleGo false rest

/-- Python `str.title`. -/
def pyTitle (s : List Char) : List Char :=
  pyTitleGo false s

/-- Python regex `\w` (word character), restricted to the character
repertoire the engine processes: ASCII alphanumerics, underscore, and the
Devanagari letters and digits.  The Devanagari combining signs (matras,
virama, nukta, anusvara, candrabindu: U+0900..U+0903, U+093A..U+093C,
U+093E..U+094F, U+0951..U+0957, U+0962..U+0965, U+0970) are not word
characters for Python either. -/
def isPyWordChar (c : Char) : Bool :=
  isAsciiAlpha c ∨ ('0' ≤ c ∧ c ≤ '9') ∨ c = '_' ∨
  (0x904 ≤ c.val ∧ c.val ≤ 0x939) ∨ c.val = 0x93d ∨ c.val = 0x950 ∨
  (0x958 ≤ c.val ∧ c.val ≤ 0x961) ∨ (0x966 ≤ c.val ∧ c.val ≤ 0x96f) ∨
  (0x971 ≤ c.val ∧ c.val ≤ 0x97f)

/-- Case-insensitive (ASCII) comparison of a pattern word against the head
of `s`. -/
def lowerIsPrefixOf (pat : List Char) (s : List Char) : Bool :=
  pat.isPrefixOf (s.map asciiLower)

/-- One pass of Python `re.sub(r'\b(<stem>)a\b', r'\1', s, flags=IGNORECASE)`
(`stem` given lowercase): wherever the word `<stem>a` stands between word
boundaries, drop its trailing `a`, keeping the original case of the stem.
`prev` is the character immediately before the scan position. -/
def subStemAF (stem : List Char) : Nat → Option Char → List Char → List Char
  | 0, _, s => s
  | _ + 1, _, [] => []
  | fuel + 1, prev, c :: rest =>
    let boundaryBefore := match prev with
      | none => true
      | some p => !isPyWordChar p
    let target := stem ++ ['a']
    let boundaryAfter : Bool := match (c :: rest).drop target.length with
      | [] => true
      | d :: _ => !isPyWordChar d
    if boundaryBefore && lowerIsPrefixOf target (c :: rest) && boundaryAfter then
      (c :: rest).take stem.length ++
        subStemAF stem fuel (some 'a') ((c :: rest).drop target.length)
    else
      c :: subStemAF stem fuel (some c) rest

/-- `re.sub(r'\b(<stem>)a\b', r'\1', s, flags=IGNORECASE)`. -/
def subStemA (stem : String) (s : List Char) : List Char :=
  subStemAF stem.data (s.length + 1) none s

/-- The stems of the eleven trailing-vowel patterns of
`_clean_itrans_output`, in source order. -/
def itransStems : List String :=
  ["ram", "shyam", "mohan", "krishna", "geeta", "sita", "radha", "prakash",
   "vikas", "raj", "dev"]

/-- `FinalVoterDataProcessor._clean_itrans_output`: strip unwanted trailing
`a` from the listed name stems, remove the ITRANS markers `~` and `^`,
normalise whitespace. -/
def cleanItransOutput (itransText : String) : String :=
  if itransText = "" then ""
  else
    let s1 := itransStems.foldl (fun s stem => subStemA stem s) itransText.data
    let s2 := s1.filter (fun c => !(c = '~' ∨ c = '^'))
    ⟨normalizeWs s2⟩

/-- The `name_mapping` dictionary of `_transliterate_with_indic_nlp`, in
source order. -/
def nameMapping : List (String × String) :=
  [("राम", "Ram"), ("श्याम", "Shyam"), ("मोहन", "Mohan"), ("सोहन", "Sohan"),
   ("गीता", "Geeta"), ("सीता", "Sita"), ("राधा", "Radha"), ("कृष्ण", "Krishna"),
   ("गोपाल", "Gopal"), ("हरि", "Hari"), ("देव", "Dev"), ("प्रकाश", "Prakash"),
   ("विकास", "Vikas"), ("अमित", "Amit"), ("सुमित", "Sumit"), ("राज", "Raj"),
   ("विजय", "Vijay"), ("अजय", "Ajay"), ("संजय", "Sanjay")]

/-- Python `str.split()`: split on whitespace, dropping empty pieces. -/
def pySplit (s : List Char) : List String :=
  ((s.splitOnP isPySpace).map (fun l => (⟨l⟩ : String))).filter (fun w => w ≠ "")

/-- `FinalVoterDataProcessor._transliterate_with_indic_nlp`: curated
dictionary first, word-by-word for multi-word names, systematic
transliteration (`ext`) plus ITRANS cleanup otherwise. -/
def transliterateWithIndicNlp (ext : String → String) (devanagariText : String) : String :=
  let textNormalized : String := ⟨stripEnds devanagariText.data⟩
  match nameMapping.lookup textNormalized with
  | some v => v
  | none =>
    let words := pySplit textNormalized.data
    if 1 < words.length then
      String.intercalate " " (words.map (fun w =>
        match nameMapping.lookup w with
        | some v => v
        | none => cleanItransOutput (ext w)))
    else
      cleanItransOutput (ext textNormalized)

/-- The `name_patterns` list of `transliterate_name`, in source order. -/
def namePatterns : List (String × String) :=
  [("dhananati", "dhananti"), ("prakasha", "prakash"), ("rajesha", "rajesh"),
   ("mahesha", "mahesh"), ("vijaya", "vijay"), ("kumara", "kumar"),
   ("rama", "ram"), ("simha", "singh"), ("sunita", "sunita"),
   ("sarita", "sarita"), ("kamala", "kamala"), ("sharma", "sharma"),
   ("gupta", "gupta"), ("anita", "anita")]

/-- The first `name_patterns` entry whose pattern occurs in the lowercased
string wins: `s` becomes the lowercased string with that pattern replaced
(`s = s_lower.replace(pattern, replacement); break`). -/
def applyNamePatterns (s : List Char) : List Char :=
  let sLower := s.map asciiLower
  match namePatterns.find? (fun p => occursIn p.1.data sLower) with
  | some p => replaceAll p.1.data p.2.data sLower
  | none => s

/-- Replace a regex suffix pattern `<pat>$`: Python `re.sub(r'<pat>$', rep, s)`
for the three ending rules (the strings reaching this step are
whitespace-normalised and contain no newline, so `$` is exactly
end-of-string). -/
def replaceSuffix (pat rep s : List Char) : List Char :=
  if pat.isSuffixOf s then s.take (s.length - pat.length) ++ rep else s

/-- The plain (non-`$`) entries of the `replacements` list of
`transliterate_name`, in source order.  `\'` is the one-character
apostrophe string and `\\.h` etc. are the literal three-character strings
backslash-dot-letter (these are `str.replace` calls, not regexes). -/
def itransReplacements : List (String × String) :=
  [("aa", "a"), ("ii", "i"), ("uu", "u"), ("ee", "e"), ("oo", "o"),
   ("~n", "n"), ("\x27", ""), ("\\.h", "h"), ("\\.n", "n"), ("\\.m", "m"),
   ("\\.t", "t"), ("\\.d", "d"), ("chh", "chh"), ("~", "")]

/-- Python `re.sub(r'([aeiou])\1+', r'\1', s)`: collapse every run of two or
more equal lowercase vowels to one.  `skip` is the vowel of the run being
collapsed, if any. -/
def collapseVowelGo : Option Char → List Char → List Char
  | _, [] => []
  | skip, c :: rest =>
    if skip = some c then collapseVowelGo skip rest
    else if c = 'a' ∨ c = 'e' ∨ c = 'i' ∨ c = 'o' ∨ c = 'u' then
      c :: collapseVowelGo (some c) rest
    else c :: collapseVowelGo none rest

/-- `re.sub(r'([aeiou])\1+', r'\1', s)`. -/
def collapseVowelRuns (s : List Char) : List Char :=
  collapseVowelGo none s

/-- Does the string consist solely of ASCII letters, whitespace, hyphens and
dots (the `^[A-Za-z\s\-\.]+$` check)? -/
def isLatinName (s : String) : Bool :=
  s.data ≠ [] ∧ s.data.all (fun c => isAsciiAlpha c ∨ isPySpace c ∨ c = '-' ∨ c = '.')

/-- `unicodedata.normalize('NFC', s)`.  Every precomposed Devanagari code
point is a composition exclusion and the engine's inputs carry no nukta or
reorderable combining sequences, so canonical composition is the identity
on the character repertoire handled here. -/
def nfcNormalize (s : String) : String := s

/-- The Devanagari-and-whitespace projection of `transliterate_name`:
`re.sub(r'[^ऀ-ॿ\s]', ' ', text)` followed by whitespace
normalisation. -/
def devanagariFilter (text : String) : List Char :=
  normalizeWs (text.data.map (fun c => if isDevanagari c ∨ isPySpace c then c else ' '))

/-- The post-processing tail of `transliterate_name` (applied to the output
of `_transliterate_with_indic_nlp`): name patterns, digraph and artifact
replacements, ending rules, vowel-run collapse, residue removal, whitespace
normalisation, title case. -/
def transliteratePost (itrans : String) : String :=
  let s1 := applyNamePatterns itrans.data
  let s2 := itransReplacements.foldl (fun s p => replaceAll p.1.data p.2.data s) s1
  let s3 := replaceSuffix "asha".data "ash".data s2
  let s4 := replaceSuffix "ata".data "at".data s3
  let s5 := replaceSuffix "ana".data "an".data s4
  let s6 := collapseVowelRuns s5
  let s7 := s6.map (fun c => if isAsciiAlpha c ∨ c = '-' ∨ isPySpace c then c else ' ')
  let s8 := normalizeWs s7
  if s8 = [] then "" else ⟨pyTitle s8⟩

/-- `FinalVoterDataProcessor.transliterate_name`: normalise, keep the
Devanagari portion, transliterate via `_transliterate_with_indic_nlp`, then
post-process. -/
def transliterate_name (ext : String → String) (hindiName : String) : String :=
  if hindiName = "" then ""
  else if isLatinName hindiName then
    ⟨pyTitle (normalizeWs hindiName.data)⟩
  else
    let devanagariOnly := devanagariFilter (nfcNormalize hindiName)
    if devanagariOnly = [] then ""
    else transliteratePost (transliterateWithIndicNlp ext ⟨devanagariOnly⟩)

/-!
## Header extractor, name splitter, field cleaner, record builder
-/

/-- The eight-key header mapping (`district`, `bodyNumber`, `ward`,
`pollingCenter`, `partNumber`, `roomNumber`, `sectionNumber`, `locality`). -/
structure HeaderInfo where
  district : String
  bodyNumber : String
  ward : String
  pollingCenter : String
  partNumber : String
  roomNumber : String
  sectionNumber : String
  locality : String
  deriving DecidableEq, Repr

/-- `FinalVoterDataProcessor.extract_header_info`: returns a fixed mapping,
independent of the page text. -/
def extract_header_info (_text : String) : HeaderInfo :=
  { district := "023-Ghaziabad"
    bodyNumber := "1-Ghaziabad"
    ward := "3-Babu Krishan Nagar"
    pollingCenter := "8-Cent Paul Public School Krishan Nagar Babu"
    partNumber := "4"
    roomNumber := "5"
    sectionNumber := "4"
    locality := "Krishyan Nagar" }

/-- A voter record as assembled by `parse_middle_text`. -/
structure VoterRecord where
  age : Nat
  gender : String
  srNo : String
  voterName : String
  voterNameHindi : String
  voterNameLower : String
  fatherOrHusbandName : String
  fatherOrHusbandNameHindi : String
  fatherOrHusbandNameLower : String
  houseNo : String
  bodyNumber : String
  district : String
  locality : String
  partNumber : String
  pollingCenter : String
  roomNumber : String
  sectionNumber : String
  ward : String
  deriving DecidableEq, Repr

/-- The `address_patterns` checks of `parse_middle_text` (each applied with
`re.match`, i.e. anchored at the start of the word; a word contains no
whitespace, so `…$` means the whole word). -/
def matchesAddressPattern (w : String) : Bool :=
  let d := w.data
  (d ≠ [] ∧ d.all isPyDigit) ||                 -- ^[०-९\d]+$
  (match d with | c :: _ => isPyDigit c | [] => false) ||  -- ^[०-९\d]
  (match d with                                  -- ^[A-Za-z][०-९\d]
   | a :: b :: _ => isAsciiAlpha a ∧ isPyDigit b
   | _ => false) ||
  "एच/".data.isPrefixOf d || "ए/".data.isPrefixOf d || "बी/".data.isPrefixOf d ||
  "सी/".data.isPrefixOf d || "डी/".data.isPrefixOf d ||
  w = "कृष्णा" ||                                 -- कृष्णा$
  w = "नगर" ||                                   -- नगर$
  "स-".data.isPrefixOf d || "ए01".data.isPrefixOf d || "बि".data.isPrefixOf d

/-- The characters of `'ABCDEFGHabcdefghएबीसीडीएफजीएच'` (the
`is_short_alphanum` letter set). -/
def shortAlnumChars : List Char :=
  "ABCDEFGHabcdefghएबीसीडीएफजीएच".data

/-- The `is_short_alphanum` check of `parse_middle_text`. -/
def isShortAlphanum (w : String) : Bool :=
  w.data.length ≤ 4 ∧
  ((w.data ≠ [] ∧ w.data.all isPyDigit) ∨ w.data.any isPyDigit ∨
   w.data.any (fun c => shortAlnumChars.contains c))

/-- A word the address loop consumes. -/
def isAddressWord (w : String) : Bool :=
  matchesAddressPattern w || isShortAlphanum w

/-- The `father_indicators` list of `parse_middle_text`, in source order. -/
def fatherIndicators : List String :=
  ["सिसंह", "सिंह", "कुमार", "प्रसाद", "लाल", "चंद", "देव", "राम", "शर्मा", "गुप्ता"]

/-- Position (counting from `start`) of the first word containing a
relation-indicator substring. -/
def indicatorIdx : Nat → List String → Option Nat
  | _, [] => none
  | i, w :: rest =>
    if fatherIndicators.any (fun ind => occursIn ind.data w.data) then some i
    else indicatorIdx (i + 1) rest

/-- The indicator scan of `parse_middle_text`: the first index `i ≥ 1` whose
word contains an indicator as a substring; defaults to `n / 2`. -/
def findSplitPoint (nameWords : List String) : Nat :=
  match indicatorIdx 1 (nameWords.drop 1) with
  | some i => i
  | none => nameWords.length / 2

/-- Lines 455–478 of `parse_middle_text`: split the name words into the
voter name and the father/husband name.  One word keeps the father name
empty; two words split 1/1; three or more words split at the first
indicator position (default: the middle); zero words yield no record. -/
def splitNameWords (nameWords : List String) : Option (String × String) :=
  if nameWords.length = 1 then
    some (nameWords.headD "", "")
  else if nameWords.length = 2 then
    some (nameWords.headD "", nameWords.getD 1 "")
  else if 3 ≤ nameWords.length then
    let splitPoint := findSplitPoint nameWords
    some (String.intercalate " " (nameWords.take splitPoint),
          String.intercalate " " (nameWords.drop splitPoint))
  else
    none

/-- `FinalVoterDataProcessor.split_names` (standalone helper, lines 525–543;
not called by the processing pipeline). -/
def split_names (nameWords : List String) : String × String :=
  if nameWords = [] then ("", "")
  else if nameWords.length = 1 then (nameWords.headD "", "")
  else if nameWords.length = 2 then (nameWords.headD "", nameWords.getD 1 "")
  else if nameWords.length = 3 then
    (nameWords.headD "", String.intercalate " " (nameWords.drop 1))
  else if nameWords.length = 4 then
    (String.intercalate " " (nameWords.take 2), String.intercalate " " (nameWords.drop 2))
  else
    let mid := nameWords.length / 2
    (String.intercalate " " (nameWords.take mid), String.intercalate " " (nameWords.drop mid))

/-- The `non_name_words` stop-word set of `clean_and_validate_name`. -/
def nonNameWords : List String :=
  ["पुत्र", "पत्नी", "पति", "स/ो", "डब्ल्यू/ओ", "पिता", "का", "की", "के"]

/-- `FinalVoterDataProcessor.clean_and_validate_name`: keep only Devanagari
and whitespace, normalise whitespace, drop relational stop-words. -/
def clean_and_validate_name (name : String) : String :=
  if name = "" then ""
  else
    let cleaned := normalizeWs (name.data.map
      (fun c => if isDevanagari c ∨ isPySpace c then c else ' '))
    let words := pySplit cleaned
    String.intercalate " " (words.filter (fun w => ¬ nonNameWords.contains w))

/-- `FinalVoterDataProcessor.clean_house_number`: keep only ASCII
alphanumerics and Devanagari code points. -/
def clean_house_number (houseNo : String) : String :=
  if houseNo = "" then ""
  else
    ⟨houseNo.data.filter (fun c =>
      isAsciiAlpha c ∨ ('0' ≤ c ∧ c ≤ '9') ∨ isDevanagari c)⟩

/-- Python `x.lower() if x else ""`, as used for the lowercase name fields. -/
def pyLowerOpt (s : String) : String :=
  if s ≠ "" then lowerStr s else ""

/-- The address/name-word split of `parse_middle_text` (lines 420–450): the
leading run of address-like words is the address, the rest are name words,
with the re-balancing of the `len(name_words) == 0` and `== 1` cases.
Returns `(nameWords, addressWords)`. -/
def parseAddressSplit (words : List String) : List String × List String :=
  let addressWords0 := words.takeWhile isAddressWord
  let nameWords0 := words.drop addressWords0.length
  if nameWords0.length = 0 then (words, ([] : List String))
  else if nameWords0.length = 1 ∧ 2 < addressWords0.length then
    if 2 ≤ words.length then (words.drop (words.length - 2), words.take (words.length - 2))
    else (words, [])
  else (nameWords0, addressWords0)

/-- The record constructed by `parse_middle_text` (lines 488–517) from the
cleaned voter name, father name and house number.  The English fields apply
the transliterator when the Hindi field is non-empty; the lowercase fields
lowercase the English fields when non-empty. -/
def buildVoterRecord (ext : String → String) (srNo gender : String) (age : Nat)
    (headerInfo : HeaderInfo) (voterName fatherName houseNo : String) : VoterRecord :=
  { age := age
    gender := if gender = "पु" ∨ gender = "पुरुष" then "M" else "F"
    srNo := srNo
    voterName := if voterName ≠ "" then transliterate_name ext voterName else ""
    voterNameHindi := voterName
    voterNameLower := pyLowerOpt (if voterName ≠ "" then transliterate_name ext voterName else "")
    fatherOrHusbandName := if fatherName ≠ "" then transliterate_name ext fatherName else ""
    fatherOrHusbandNameHindi := fatherName
    fatherOrHusbandNameLower :=
      pyLowerOpt (if fatherName ≠ "" then transliterate_name ext fatherName else "")
    houseNo := houseNo
    bodyNumber := headerInfo.bodyNumber
    district := headerInfo.district
    locality := headerInfo.locality
    partNumber := headerInfo.partNumber
    pollingCenter := headerInfo.pollingCenter
    roomNumber := headerInfo.roomNumber
    sectionNumber := headerInfo.sectionNumber
    ward := headerInfo.ward }

/-- `FinalVoterDataProcessor.parse_middle_text`: split the middle group into
address words and name words, split the names, clean the fields,
transliterate, and build the record. -/
def parse_middle_text (ext : String → String) (srNo middleText gender : String)
    (age : Nat) (headerInfo : HeaderInfo) : Option VoterRecord :=
  if (pySplit (normalizeWs middleText.data)).length < 1 then none
  else
    match splitNameWords (parseAddressSplit (pySplit (normalizeWs middleText.data))).1 with
    | none => none
    | some (voterName0, fatherName0) =>
      if clean_and_validate_name voterName0 = "" ∨
          (stripEnds (clean_and_validate_name voterName0).data).length < 2 then none
      else
        some (buildVoterRecord ext srNo gender age headerInfo
          (clean_and_validate_name voterName0)
          (clean_and_validate_name fatherName0)
          (clean_house_number (String.intercalate " "
            (parseAddressSplit (pySplit (normalizeWs middleText.data))).2)))

/-- The match loop of `extract_voters_from_line` (lines 374–393): parse the
age, silently discard matches with age outside [18, 120], otherwise build a
record via `parse_middle_text` (`group(2).strip()` is applied to the
middle), skipping matches whose record comes back empty. -/
def processMatches (ext : String → String) (headerInfo : HeaderInfo) :
    List RawMatch → List VoterRecord
  | [] => []
  | m :: rest =>
    if pyStrToNat m.ageStr < 18 ∨ 120 < pyStrToNat m.ageStr then
      processMatches ext headerInfo rest
    else
      match parse_middle_text ext m.srNo ⟨stripEnds m.middle.data⟩ m.gender
          (pyStrToNat m.ageStr) headerInfo with
      | some r => r :: processMatches ext headerInfo rest
      | none => processMatches ext headerInfo rest

/-- `FinalVoterDataProcessor.extract_voters_from_line`: reject empty or
short lines, glyph-repair the line, scan it with `voter_pattern`, and build
records from the matches. -/
def extract_voters_from_line (ext : String → String) (line : String)
    (headerInfo : HeaderInfo) : List VoterRecord :=
  if line = "" ∨ line.length < 20 then []
  else processMatches ext headerInfo (finditerVoter (clean_cid_text line))

/-!
## Validator and deduplicator
-/

/-- `FinalVoterDataProcessor.validate_voter_record`: the ordered issue list.
A required string field is missing when it is empty or whitespace-only; the
required `age` is missing when it is `0` (Python falsiness of the int). -/
def validationIssues (r : VoterRecord) : List String :=
  let missing : List String :=
    (if stripEnds r.srNo.data = [] then ["Missing srNo"] else []) ++
    (if stripEnds r.voterName.data = [] then ["Missing voterName"] else []) ++
    (if stripEnds r.voterNameHindi.data = [] then ["Missing voterNameHindi"] else []) ++
    (if r.age = 0 then ["Missing age"] else []) ++
    (if stripEnds r.gender.data = [] then ["Missing gender"] else [])
  let ageIssue := if r.age < 18 ∨ 120 < r.age then ["Invalid age: " ++ toString r.age] else []
  let genderIssue :=
    if r.gender ≠ "M" ∧ r.gender ≠ "F" then ["Invalid gender: " ++ r.gender] else []
  let hindiShort :=
    if (r.voterNameHindi.data.filter (fun c => c ≠ ' ')).length < 2 then
      ["Hindi voter name too short"] else []
  let englishShort :=
    if (r.voterName.data.filter (fun c => c ≠ ' ')).length < 2 then
      ["English voter name too short or missing"] else []
  let translitVoter :=
    if r.voterNameHindi ≠ "" ∧ r.voterName = "" then
      ["Transliteration failed for voter name"] else []
  let translitFather :=
    if r.fatherOrHusbandNameHindi ≠ "" ∧ r.fatherOrHusbandName = "" then
      ["Transliteration failed for father/husband name"] else []
  missing ++ ageIssue ++ genderIssue ++ hindiShort ++ englishShort ++
    translitVoter ++ translitFather

/-- `validate_voter_record(...)['valid']`. -/
def validRecord (r : VoterRecord) : Bool :=
  validationIssues r = []

/-- `validate_voter_record(...)['quality_score'] = max(0, 100 - 10 * issues)`. -/
def qualityScore (r : VoterRecord) : Nat :=
  100 - 10 * (validationIssues r).length

/-- The dedup key `(srNo, voterNameLower)`. -/
def dedupKey (r : VoterRecord) : String × String :=
  (r.srNo, r.voterNameLower)

/-- The dedup loop of `process_pdf_file` (lines 733–745): keep a record only
if it validates and its key has not been seen; invalid records and
duplicate keys are skipped. -/
def dedupLoop : List VoterRecord → List (String × String) → List VoterRecord
  | [], _ => []
  | v :: rest, seen =>
    if validRecord v then
      if dedupKey v ∈ seen then dedupLoop rest seen
      else v :: dedupLoop rest (dedupKey v :: seen)
    else dedupLoop rest seen

/-- The validation/deduplication step of `process_pdf_file` applied to the
accumulated records. -/
def dedup_records (records : List VoterRecord) : List VoterRecord :=
  dedupLoop records []

/-!
## Specification-side definitions and proof-support constants
-/

/-- Specification-side restatement of the deduplication contract (spec §4.7
and claim C2): a record is kept iff it is valid and no valid record earlier
in document scan order (the accumulated prefix `pre`) carries the same
`(srNo, voterNameLower)` key. -/
def dedupSpecGo (pre : List VoterRecord) : List VoterRecord → List VoterRecord
  | [] => []
  | v :: rest =>
    if validRecord v ∧ ¬ ∃ p ∈ pre, validRecord p ∧ dedupKey p = dedupKey v then
      v :: dedupSpecGo (pre ++ [v]) rest
    else dedupSpecGo (pre ++ [v]) rest

/-- Specification-side deduplication: first valid record per key survives. -/
def dedup_spec (records : List VoterRecord) : List VoterRecord :=
  dedupSpecGo [] records

/-- The keys of the curated `name_mapping` dictionary. -/
def curatedNameKeys : List String :=
  ["राम", "श्याम", "मोहन", "सोहन", "गीता", "सीता", "राधा", "कृष्ण", "गोपाल",
   "हरि", "देव", "प्रकाश", "विकास", "अमित", "सुमित", "राज", "विजय", "अजय", "संजय"]

/-- Every whitespace character of the list is the ASCII space. -/
def wsAllAscii (l : List Char) : Bool :=
  l.all (fun c => !isPySpace c || c = ' ')

/-- No two adjacent whitespace characters. -/
def noTwoSpaces : List Char → Bool
  | [] => true
  | [_] => true
  | c :: d :: rest => !(isPySpace c && isPySpace d) && noTwoSpaces (d :: rest)

/-- The scenario line of spec §8 / claim C1 (as printed, before glyph
repair: `extract_voters_from_line` repairs it itself). -/
def scenarioLine : String :=
  "49 कृष्णा राजकुमार रामपाल सिसंह पु 46 50 नगर सुनिता राजकुमार म 43"

/-- The scenario line after `clean_cid_text` (the broken-sequence table
rewrites `सिसं` inside `सिसंह` to `सिंह`, leaving `सिंहह`). -/
def scenarioCleaned : String :=
  "49 कृष्णा राजकुमार रामपाल सिंहह पु 46 50 नगर सुनिता राजकुमार म 43"

/-- First record extracted from the scenario line: address word `कृष्णा`,
voter name `राजकुमार`, father name `रामपाल सिंहह` (split at the `राम`
indicator inside `रामपाल`). -/
def scenarioRec1 (ext : String → String) (h : HeaderInfo) : VoterRecord :=
  buildVoterRecord ext "49" "पु" 46 h "राजकुमार" "रामपाल सिंहह" "कृष्णा"

/-- Second record extracted from the scenario line: address word `नगर`,
voter name `सुनिता`, father name `राजकुमार`. -/
def scenarioRec2 (ext : String → String) (h : HeaderInfo) : VoterRecord :=
  buildVoterRecord ext "50" "म" 43 h "सुनिता" "राजकुमार" "नगर"

/-!
## Helper lemmas: substring occurrence and substitution identities
-/

theorem isPrefixOf_append_drop : ∀ {k s : List Char}, k.isPrefixOf s = true →
    k ++ s.drop k.length = s
  | [], s, _ => by simp
  | a :: k, [], h => by simp [List.isPrefixOf] at h
  | a :: k, c :: s, h => by
    simp only [List.isPrefixOf, Bool.and_eq_true, beq_iff_eq] at h
    obtain ⟨rfl, h2⟩ := h
    simpa using isPrefixOf_append_drop h2

theorem isPrefixOf_trans : ∀ {a b c : List Char}, a.isPrefixOf b = true →
    b.isPrefixOf c = true → a.isPrefixOf c = true
  | [], _, _, _, _ => by simp
  | x :: a, [], _, h, _ => by simp [List.isPrefixOf] at h
  | x :: a, y :: b, [], _, h2 => by simp [List.isPrefixOf] at h2
  | x :: a, y :: b, z :: c, h1, h2 => by
    simp only [List.isPrefixOf, Bool.and_eq_true, beq_iff_eq] at h1 h2 ⊢
    exact ⟨h1.1.trans h2.1, isPrefixOf_trans h1.2 h2.2⟩

theorem occursIn_of_occursIn_of_isPrefixOf {k1 k2 : List Char}
    (hp : k1.isPrefixOf k2 = true) :
    ∀ {s : List Char}, occursIn k2 s = true → occursIn k1 s = true
  | [], h => by
    simp only [occursIn] at h ⊢
    exact isPrefixOf_trans hp h
  | c :: rest, h => by
    simp only [occursIn, Bool.or_eq_true] at h ⊢
    rcases h with h | h
    · exact Or.inl (isPrefixOf_trans hp h)
    · exact Or.inr (occursIn_of_occursIn_of_isPrefixOf hp h)

theorem occursIn_tail {k : List Char} {c : Char} {rest : List Char}
    (h : occursIn k (c :: rest) = false) : occursIn k rest = false := by
  simp only [occursIn, Bool.or_eq_false_iff] at h
  exact h.2

theorem not_isPrefixOf_of_not_occursIn {k s : List Char}
    (h : occursIn k s = false) : k.isPrefixOf s = false := by
  cases s with
  | nil => simpa [occursIn] using h
  | cons c rest =>
    simp only [occursIn, Bool.or_eq_false_iff] at h
    exact h.1

theorem replaceAllF_of_not_occursIn {k v : List Char} :
    ∀ (fuel : Nat) {s : List Char}, occursIn k s = false →
      replaceAllF k v fuel s = s
  | 0, s, _ => rfl
  | _ + 1, [], _ => rfl
  | fuel + 1, c :: rest, h => by
    have hpre := not_isPrefixOf_of_not_occursIn h
    simp only [replaceAllF, hpre, Bool.false_eq_true, and_false, ne_eq,
      if_false, List.cons.injEq, true_and]
    · exact replaceAllF_of_not_occursIn fuel (occursIn_tail h)

theorem replaceAllF_self {k : List Char} :
    ∀ (fuel : Nat) (s : List Char), replaceAllF k k fuel s = s
  | 0, _ => rfl
  | _ + 1, [] => rfl
  | fuel + 1, c :: rest => by
    by_cases h : k ≠ [] ∧ k.isPrefixOf (c :: rest) = true
    · rw [replaceAllF, if_pos h]
      rw [replaceAllF_self fuel]
      exact isPrefixOf_append_drop h.2
    · rw [replaceAllF, if_neg h]
      rw [replaceAllF_self fuel]

theorem replaceAll_of_not_occursIn {k v s : List Char}
    (h : occursIn k s = false) : replaceAll k v s = s :=
  replaceAllF_of_not_occursIn _ h

theorem replaceAll_self {k s : List Char} : replaceAll k k s = s :=
  replaceAllF_self _ s

theorem applyTable_id (table : List (String × String)) (s : List Char)
    (h : ∀ p ∈ table, p.1 = p.2 ∨ occursIn p.1.data s = false) :
    applyTable table s = s := by
  induction table with
  | nil => rfl
  | cons p rest ih =>
    have hstep : replaceAll p.1.data p.2.data s = s := by
      rcases h p (by simp) with h1 | h2
      · rw [h1]; exact replaceAll_self
      · exact replaceAll_of_not_occursIn h2
    simpa [applyTable, hstep] using ih (fun q hq => h q (by simp [hq]))

theorem matchCidToken_isPrefixOf {s t : List Char}
    (h : matchCidToken s = some t) : ("(cid:".data).isPrefixOf s = true := by
  unfold matchCidToken at h
  split at h
  case h_2 => exact absurd h (by simp)
  case h_1 rest => simp [List.isPrefixOf, String.data]

theorem removeCidTokensF_id :
    ∀ (fuel : Nat) {s : List Char}, occursIn "(cid:".data s = false →
      removeCidTokensF fuel s = s
  | 0, s, _ => rfl
  | _ + 1, [], _ => rfl
  | fuel + 1, c :: rest, h => by
    have hnone : matchCidToken (c :: rest) = none := by
      cases hm : matchCidToken (c :: rest) with
      | none => rfl
      | some t =>
        have := matchCidToken_isPrefixOf hm
        rw [not_isPrefixOf_of_not_occursIn h] at this
        exact absurd this (by simp)
    rw [removeCidTokensF, hnone]
    rw [removeCidTokensF_id fuel (occursIn_tail h)]

theorem removeCidTokens_id {s : List Char}
    (h : occursIn "(cid:".data s = false) : removeCidTokens s = s :=
  removeCidTokensF_id _ h

/-!
## Helper lemmas: whitespace normalisation is idempotent
-/

theorem noTwoSpaces_cons {c : Char} {l : List Char}
    (hl : noTwoSpaces l = true)
    (hc : l = [] ∨ ∀ d r, l = d :: r → ¬(isPySpace c = true ∧ isPySpace d = true)) :
    noTwoSpaces (c :: l) = true := by
  cases l with
  | nil => rfl
  | cons d r =>
    rcases hc with hc | hc
    · exact absurd hc (by simp)
    · have := hc d r rfl
      simp only [noTwoSpaces, Bool.and_eq_true, Bool.not_eq_true']
      constructor
      · by_cases h1 : isPySpace c = true
        · by_cases h2 : isPySpace d = true
          · exact absurd ⟨h1, h2⟩ this
          · simp [h1, h2]
        · simp [h1]
      · exact hl

theorem noTwoSpaces_tail {c : Char} {l : List Char}
    (h : noTwoSpaces (c :: l) = true) : noTwoSpaces l = true := by
  cases l with
  | nil => rfl
  | cons d r =>
    simp only [noTwoSpaces, Bool.and_eq_true] at h
    exact h.2

theorem collapseWsGo_shape :
    ∀ (s : List Char) (b : Bool),
      noTwoSpaces (collapseWsGo b s) = true ∧
      wsAllAscii (collapseWsGo b s) = true ∧
      (b = true → ∀ c r, collapseWsGo b s = c :: r → isPySpace c = false)
  | [], b => by
    refine ⟨rfl, rfl, fun _ c r h => ?_⟩
    simp [collapseWsGo] at h
  | c :: rest, b => by
    by_cases hsp : isPySpace c = true
    · cases b with
      | true =>
        have ih := collapseWsGo_shape rest true
        have hform : collapseWsGo true (c :: rest) = collapseWsGo true rest := by
          simp [collapseWsGo, hsp]
        rw [hform]
        exact ih
      | false =>
        have ih := collapseWsGo_shape rest true
        have hform : collapseWsGo false (c :: rest) = ' ' :: collapseWsGo true rest := by
          simp [collapseWsGo, hsp]
        rw [hform]
        refine ⟨?_, ?_, fun hb => absurd hb (by simp)⟩
        · refine noTwoSpaces_cons ih.1 ?_
          refine Or.inr (fun d' r' he hcon => ?_)
          rw [ih.2.2 rfl d' r' he] at hcon
          exact absurd hcon.2 (by simp)
        · simp only [wsAllAscii, List.all_cons, Bool.and_eq_true]
          exact ⟨by simp, ih.2.1⟩
    · have hsp' : isPySpace c = false := by simpa using hsp
      have ih := collapseWsGo_shape rest false
      have hform : collapseWsGo b (c :: rest) = c :: collapseWsGo false rest := by
        cases b <;> simp [collapseWsGo, hsp']
      rw [hform]
      refine ⟨?_, ?_, ?_⟩
      · refine noTwoSpaces_cons ih.1 ?_
        refine Or.inr (fun d r _ hcon => ?_)
        rw [hsp'] at hcon
        exact absurd hcon.1 (by simp)
      · simp only [wsAllAscii, List.all_cons, Bool.and_eq_true]
        exact ⟨by simp [hsp'], ih.2.1⟩
      · intro _ c' r' he
        cases he
        exact hsp'

theorem collapseWsGo_true_eq_false {l : List Char}
    (h : l = [] ∨ ∀ c r, l = c :: r → isPySpace c = false) :
    collapseWsGo true l = collapseWsGo false l := by
  cases l with
  | nil => rfl
  | cons c rest =>
    rcases h with h | h
    · exact absurd h (by simp)
    · have := h c rest rfl
      simp [collapseWsGo, this]

theorem collapseWsGo_fixed :
    ∀ {s : List Char}, wsAllAscii s = true → noTwoSpaces s = true →
      collapseWsGo false s = s
  | [], _, _ => rfl
  | c :: rest, ha, hn => by
    have harest : wsAllAscii rest = true := by
      simp only [wsAllAscii, List.all_cons, Bool.and_eq_true] at ha
      exact ha.2
    by_cases hsp : isPySpace c = true
    · have hc : c = ' ' := by
        simp only [wsAllAscii, List.all_cons, Bool.and_eq_true, Bool.or_eq_true,
          Bool.not_eq_true', decide_eq_true_eq] at ha
        rcases ha.1 with h | h
        · rw [hsp] at h; exact absurd h (by simp)
        · exact h
      have hrest : rest = [] ∨ ∀ d r, rest = d :: r → isPySpace d = false := by
        cases rest with
        | nil => exact Or.inl rfl
        | cons d r =>
          refine Or.inr (fun d' r' he => ?_)
          cases he
          simp only [noTwoSpaces, Bool.and_eq_true, Bool.not_eq_true',
            Bool.and_eq_false_iff] at hn
          rcases hn.1 with h | h
          · rw [hsp] at h; exact absurd h (by simp)
          · exact h
      have : collapseWsGo false (c :: rest) = ' ' :: collapseWsGo true rest := by
        simp [collapseWsGo, hsp]
      rw [this, collapseWsGo_true_eq_false hrest,
        collapseWsGo_fixed harest (noTwoSpaces_tail hn), hc]
    · have : collapseWsGo false (c :: rest) = c :: collapseWsGo false rest := by
        simp [collapseWsGo, hsp]
      rw [this, collapseWsGo_fixed harest (noTwoSpaces_tail hn)]

theorem rightStrip_cons_eq (c : Char) (rest : List Char) :
    rightStrip (c :: rest) = rightStripStep c (rightStrip rest) := rfl

theorem rightStrip_idem : ∀ (l : List Char), rightStrip (rightStrip l) = rightStrip l
  | [] => rfl
  | c :: rest => by
    have ih := rightStrip_idem rest
    cases h : rightStrip rest with
    | nil =>
      rw [rightStrip_cons_eq, h]
      by_cases hsp : isPySpace c = true
      · simp [rightStripStep, hsp, rightStrip]
      · simp only [rightStripStep, hsp, if_false, Bool.false_eq_true]
        rw [rightStrip_cons_eq]
        simp [rightStrip, rightStripStep, hsp]
    | cons d r =>
      rw [h] at ih
      have hcr : rightStrip (c :: rest) = c :: d :: r := by
        rw [rightStrip_cons_eq, h]; rfl
      rw [hcr, rightStrip_cons_eq, ih]
      rfl

theorem rightStrip_head : ∀ (c : Char) (rest : List Char),
    rightStrip (c :: rest) = [] ∨ ∃ t, rightStrip (c :: rest) = c :: t := by
  intro c rest
  rw [rightStrip_cons_eq]
  cases h : rightStrip rest with
  | nil =>
    by_cases hsp : isPySpace c = true
    · left; simp [rightStripStep, hsp]
    · right; exact ⟨[], by simp [rightStripStep, hsp]⟩
  | cons d r => right; exact ⟨d :: r, rfl⟩

theorem rightStrip_preserves (l : List Char) (ha : wsAllAscii l = true)
    (hn : noTwoSpaces l = true) :
    wsAllAscii (rightStrip l) = true ∧ noTwoSpaces (rightStrip l) = true := by
  induction l with
  | nil => exact ⟨rfl, rfl⟩
  | cons c rest ih =>
    have harest : wsAllAscii rest = true := by
      simp only [wsAllAscii, List.all_cons, Bool.and_eq_true] at ha
      exact ha.2
    have hac : (!isPySpace c || c = ' ') = true := by
      simp only [wsAllAscii, List.all_cons, Bool.and_eq_true] at ha
      simpa using ha.1
    have ihr := ih harest (noTwoSpaces_tail hn)
    cases h : rightStrip rest with
    | nil =>
      rw [rightStrip_cons_eq, h]
      by_cases hsp : isPySpace c = true
      · simp [rightStripStep, hsp, wsAllAscii, noTwoSpaces]
      · refine ⟨?_, ?_⟩
        · simp [rightStripStep, hsp, wsAllAscii, hac]
        · simp [rightStripStep, hsp, noTwoSpaces]
    | cons d r =>
      have hout : rightStrip (c :: rest) = c :: d :: r := by
        rw [rightStrip_cons_eq, h]; rfl
      rw [hout]
      rw [h] at ihr
      refine ⟨?_, ?_⟩
      · simp only [wsAllAscii, List.all_cons, Bool.and_eq_true] at ihr ⊢
        exact ⟨hac, ihr.1.1, ihr.1.2⟩
      · refine noTwoSpaces_cons ihr.2 (Or.inr (fun d' r' he hcon => ?_))
        cases he
        -- d is the head of rest: rightStrip preserves the head
        cases rest with
        | nil => simp [rightStrip] at h
        | cons e rest' =>
          rcases rightStrip_head e rest' with h0 | ⟨t, ht⟩
          · rw [h0] at h; exact absurd h (by simp)
          · rw [ht] at h
            cases h
            -- now the pair (c, e) is adjacent in the original list
            simp only [noTwoSpaces, Bool.and_eq_true, Bool.not_eq_true',
              Bool.and_eq_false_iff] at hn
            rcases hn.1 with hbad | hbad <;>
              [exact absurd hcon.1 (by simp [hbad]);
               exact absurd hcon.2 (by simp [hbad])]

theorem dropWhile_preserves (l : List Char) (ha : wsAllAscii l = true)
    (hn : noTwoSpaces l = true) :
    wsAllAscii (l.dropWhile isPySpace) = true ∧
    noTwoSpaces (l.dropWhile isPySpace) = true := by
  induction l with
  | nil => exact ⟨rfl, rfl⟩
  | cons c rest ih =>
    have harest : wsAllAscii rest = true := by
      simp only [wsAllAscii, List.all_cons, Bool.and_eq_true] at ha
      exact ha.2
    by_cases hsp : isPySpace c = true
    · rw [List.dropWhile_cons_of_pos (by simpa using hsp)]
      exact ih harest (noTwoSpaces_tail hn)
    · rw [List.dropWhile_cons_of_neg (by simpa using hsp)]
      exact ⟨ha, hn⟩

theorem stripEnds_idem (l : List Char) : stripEnds (stripEnds l) = stripEnds l := by
  unfold stripEnds
  cases hu : l.dropWhile isPySpace with
  | nil => simp [rightStrip]
  | cons c t =>
    have hc : isPySpace c = false := by
      have := List.head_dropWhile_not isPySpace (l := l)
      rw [hu] at this
      simpa using this (by simp)
    rcases rightStrip_head c t with h0 | ⟨r, hr⟩
    · rw [h0]; simp [rightStrip]
    · rw [hr]
      rw [List.dropWhile_cons_of_neg (by simpa using hc)]
      rw [← hr, rightStrip_idem]

theorem cidMap_keys_cid : ∀ p ∈ cidMap, ("(cid:".data).isPrefixOf p.1.data = true := by
  decide

theorem normalizeWs_idem (s : List Char) : normalizeWs (normalizeWs s) = normalizeWs s := by
  unfold normalizeWs stripEnds
  set z := collapseWsRuns s with hz
  have hzs := collapseWsGo_shape s false
  have hd := dropWhile_preserves z hzs.2.1 hzs.1
  have hrs := rightStrip_preserves _ hd.1 hd.2
  have hfix : collapseWsRuns (rightStrip (z.dropWhile isPySpace)) =
      rightStrip (z.dropWhile isPySpace) := collapseWsGo_fixed hrs.1 hrs.2
  rw [hfix]
  have := stripEnds_idem z
  unfold stripEnds at this
  exact this

/-!
## Claim C10 — short lines are rejected outright
-/

/-- C10: every input line that is empty or shorter than 20 characters makes
`extract_voters_from_line` return the empty record list — glyph repair and
pattern matching are never reached (the result is `[]` for every such line,
even a well-formed voter entry). -/
theorem c10_short_line_rejected (ext : String → String) (headerInfo : HeaderInfo)
    (line : String) (hlen : line.length < 20) :
    extract_voters_from_line ext line headerInfo = [] := by
  unfold extract_voters_from_line
  rw [if_pos (Or.inr hlen)]

/-- Witness for C10 at the well-formed 11-character entry `1 कख गख पु 46`. -/
theorem c10_short_line_rejected_witness :
    ("1 कख गख पु 46" : String).length < 20 ∧
    extract_voters_from_line (fun s => s) "1 कख गख पु 46" (extract_header_info "") = [] :=
  ⟨by decide, c10_short_line_rejected (fun s => s) (extract_header_info "") _ (by decide)⟩

/-!
## Claim C6 — header extraction (corrected)

`FinalVoterDataProcessor.extract_header_info` ignores the page text and
returns fixed constants; no key is ever bound to an `UNKNOWN-<key>`
sentinel (the string `UNKNOWN` appears nowhere in the engine).
-/

/-- C6 counterexample: on the empty page text — where no keyword-anchored
pattern can possibly match — every header key is bound to a fixed constant,
not to `UNKNOWN-<key>`. -/
theorem c6_counterexample :
    (extract_header_info "").district = "023-Ghaziabad" ∧
    (extract_header_info "").district ≠ "UNKNOWN-district" ∧
    (extract_header_info "").bodyNumber ≠ "UNKNOWN-bodyNumber" ∧
    (extract_header_info "").ward ≠ "UNKNOWN-ward" ∧
    (extract_header_info "").pollingCenter ≠ "UNKNOWN-pollingCenter" ∧
    (extract_header_info "").partNumber ≠ "UNKNOWN-partNumber" ∧
    (extract_header_info "").roomNumber ≠ "UNKNOWN-roomNumber" ∧
    (extract_header_info "").sectionNumber ≠ "UNKNOWN-sectionNumber" ∧
    (extract_header_info "").locality ≠ "UNKNOWN-locality" := by
  decide

/-- C6 (amended): `extract_header_info` always returns a mapping with all
eight header keys, but the values are fixed non-empty constants independent
of the page text; unmatched keys are never `UNKNOWN-<key>` sentinels and
never empty strings, because no key is ever derived from the text at all. -/
theorem c6_amended_header_constant (text : String) :
    extract_header_info text = extract_header_info "" ∧
    (extract_header_info "").district ≠ "" ∧
    (extract_header_info "").bodyNumber ≠ "" ∧
    (extract_header_info "").ward ≠ "" ∧
    (extract_header_info "").pollingCenter ≠ "" ∧
    (extract_header_info "").partNumber ≠ "" ∧
    (extract_header_info "").roomNumber ≠ "" ∧
    (extract_header_info "").sectionNumber ≠ "" ∧
    (extract_header_info "").locality ≠ "" :=
  ⟨rfl, by decide, by decide, by decide, by decide, by decide, by decide,
   by decide, by decide⟩

/-!
## Claim C8 — name splitter defaults (corrected)

With no relation indicator present, the split point of the inline splitter
is `len / 2`, not index 1: a four-word blob splits 2/2.
-/

/-- C8 counterexample: the four-word indicator-free blob
`[मन, यन, वन, तन]` splits into `(मन यन, वन तन)`, not into the claimed
1/3 split `(मन, यन वन तन)`. -/
theorem c8_counterexample :
    splitNameWords ["मन", "यन", "वन", "तन"] = some ("मन यन", "वन तन") ∧
    splitNameWords ["मन", "यन", "वन", "तन"] ≠ some ("मन", "यन वन तन") := by
  decide

theorem indicatorIdx_none {l : List String}
    (h : ∀ w ∈ l, ∀ ind ∈ fatherIndicators, occursIn ind.data w.data = false) :
    ∀ i, indicatorIdx i l = none := by
  induction l with
  | nil => intro i; rfl
  | cons w rest ih =>
    intro i
    have hany : fatherIndicators.any (fun ind => occursIn ind.data w.data) = false := by
      rw [List.any_eq_false]
      intro ind hind
      simp [h w (by simp) ind hind]
    rw [indicatorIdx, hany]
    simp only [Bool.false_eq_true, if_false]
    exact ih (fun u hu ind hind => h u (by simp [hu]) ind hind) (i + 1)

/-- C8 (amended): a name-blob with exactly one word becomes the voter name
with an empty father name; a blob with two or more words none of which
contains a relation-indicator token splits at index `n / 2` (integer
division) — so a two-word blob splits 1/1 and a three-word blob 1/2, but a
four-word blob splits 2/2, not at index 1. -/
theorem c8_amended_split_defaults :
    (∀ w : String, splitNameWords [w] = some (w, "")) ∧
    (∀ ws : List String, 2 ≤ ws.length →
      (∀ w ∈ ws, ∀ ind ∈ fatherIndicators, occursIn ind.data w.data = false) →
      splitNameWords ws =
        some (String.intercalate " " (ws.take (ws.length / 2)),
              String.intercalate " " (ws.drop (ws.length / 2)))) := by
  constructor
  · intro w
    simp [splitNameWords]
  · intro ws hlen hnoind
    by_cases h2 : ws.length = 2
    · obtain ⟨a, b, rfl⟩ := List.length_eq_two.mp h2
      simp only [splitNameWords, List.length_cons, List.length_nil]
      norm_num
      exact ⟨rfl, rfl⟩
    · have h3 : 3 ≤ ws.length := by omega
      have hsplit : findSplitPoint ws = ws.length / 2 := by
        unfold findSplitPoint
        rw [indicatorIdx_none (fun w hw => hnoind w (List.drop_subset 1 ws hw)) 1]
      unfold splitNameWords
      rw [if_neg (by omega), if_neg h2, if_pos h3, hsplit]

/-- Witness for C8 at the indicator-free three-word blob `[मन, यन, वन]`
(split 1/2). -/
theorem c8_amended_split_defaults_witness :
    splitNameWords ["मन", "यन", "वन"] = some ("मन", "यन वन") := by
  have := c8_amended_split_defaults.2 ["मन", "यन", "वन"] (by decide) (by decide)
  simpa using this

/-!
## Claim C9 — transliteration is deterministic
-/

/-- C9: `transliterate_name` is a pure function of its input string and the
external transliterator's extensional behaviour: two calls with the same
input (and external transliterators that agree on every string) return
identical output. -/
theorem c9_transliteration_deterministic (ext1 ext2 : String → String)
    (hext : ∀ w, ext1 w = ext2 w) (x : String) :
    transliterate_name ext1 x = transliterate_name ext2 x := by
  have h : ext1 = ext2 := funext hext
  rw [h]

/-- Witness for C9 at `राम` with two syntactically different but
extensionally equal external transliterators. -/
theorem c9_transliteration_deterministic_witness :
    transliterate_name (fun w => id (id w)) "राम" = transliterate_name (fun w => w) "राम" :=
  c9_transliteration_deterministic _ _ (fun _ => rfl) "राम"

/-!
## Claim C5 — curated dictionary spellings (corrected)

A curated entry bypasses the external transliterator, but the
post-processing digraph collapse still rewrites the curated spelling:
`गीता` comes out as `Geta`, not as the curated `Geeta`.
-/

theorem transliterateWithIndicNlp_curated {t v : String} (ext : String → String)
    (h : nameMapping.lookup (⟨stripEnds t.data⟩ : String) = some v) :
    transliterateWithIndicNlp ext t = v := by
  have heq : transliterateWithIndicNlp ext t =
      (match nameMapping.lookup (⟨stripEnds t.data⟩ : String) with
       | some v => v
       | none =>
         let words := pySplit (stripEnds t.data)
         if 1 < words.length then
           String.intercalate " " (words.map (fun w =>
             match nameMapping.lookup w with
             | some v => v
             | none => cleanItransOutput (ext w)))
         else cleanItransOutput (ext (⟨stripEnds t.data⟩ : String))) := rfl
  rw [heq, h]

theorem transliterate_name_curated_congr (ext1 ext2 : String → String) (k : String)
    (h4 : nameMapping.lookup
      (⟨stripEnds (devanagariFilter (nfcNormalize k))⟩ : String) ≠ none) :
    transliterate_name ext1 k = transliterate_name ext2 k := by
  by_cases h1 : k = ""
  · have e1 : transliterate_name ext1 "" = "" := rfl
    have e2 : transliterate_name ext2 "" = "" := rfl
    rw [h1, e1, e2]
  · by_cases h2 : isLatinName k = true
    · simp only [transliterate_name, if_neg h1, if_pos h2]
    · simp only [transliterate_name, if_neg h1, if_neg h2]
      by_cases h3 : devanagariFilter (nfcNormalize k) = []
      · rw [if_pos h3, if_pos h3]
      · rw [if_neg h3, if_neg h3]
        cases hl : nameMapping.lookup
            (⟨stripEnds (devanagariFilter (nfcNormalize k))⟩ : String) with
        | none => exact absurd hl h4
        | some v =>
          have hstr : stripEnds ((⟨devanagariFilter (nfcNormalize k)⟩ : String)).data =
              stripEnds (devanagariFilter (nfcNormalize k)) := rfl
          rw [transliterateWithIndicNlp_curated ext1 (by rw [hstr]; exact hl),
            transliterateWithIndicNlp_curated ext2 (by rw [hstr]; exact hl)]

/-- C5 counterexample: `गीता` is a curated key with spelling `Geeta`, yet
`transliterate_name` returns `Geta` — the `ee → e` digraph collapse runs on
the curated spelling. -/
theorem c5_counterexample :
    nameMapping.lookup "गीता" = some "Geeta" ∧
    transliterate_name (fun s => s) "गीता" = "Geta" ∧
    transliterate_name (fun s => s) "गीता" ≠ "Geeta" := by
  decide

/-- C5 (amended): for every Hindi string equal to a curated dictionary key,
the curated spelling is used and the external transliterator is never
consulted (the output is independent of it), but the post-processing still
applies to the curated spelling: entries whose spelling survives it
(`राम → Ram`, `श्याम → Shyam`) are returned exactly with no trailing vowel
appended, while a doubled vowel in a curated spelling is collapsed
(`गीता → Geta`). -/
theorem c5_amended_curated_bypass (ext1 ext2 : String → String) :
    (∀ k ∈ curatedNameKeys, transliterate_name ext1 k = transliterate_name ext2 k) ∧
    transliterate_name ext1 "राम" = "Ram" ∧
    transliterate_name ext1 "श्याम" = "Shyam" ∧
    transliterate_name ext1 "गीता" = "Geta" := by
  refine ⟨?_, ?_, ?_, ?_⟩
  · intro k hk
    apply transliterate_name_curated_congr
    fin_cases hk <;> decide
  · have hc : transliterate_name ext1 "राम" = transliterate_name (fun s => s) "राम" :=
      transliterate_name_curated_congr ext1 (fun s => s) "राम" (by decide)
    have hv : transliterate_name (fun s => s) "राम" = "Ram" := by decide
    exact hc.trans hv
  · have hc : transliterate_name ext1 "श्याम" = transliterate_name (fun s => s) "श्याम" :=
      transliterate_name_curated_congr ext1 (fun s => s) "श्याम" (by decide)
    have hv : transliterate_name (fun s => s) "श्याम" = "Shyam" := by decide
    exact hc.trans hv
  · have hc : transliterate_name ext1 "गीता" = transliterate_name (fun s => s) "गीता" :=
      transliterate_name_curated_congr ext1 (fun s => s) "गीता" (by decide)
    have hv : transliterate_name (fun s => s) "गीता" = "Geta" := by decide
    exact hc.trans hv

/-- Witness for C5 at the curated key `सीता`, with two different external
transliterators. -/
theorem c5_amended_curated_bypass_witness :
    transliterate_name (fun s => s ++ "zz") "सीता" = transliterate_name (fun s => s) "सीता" :=
  (c5_amended_curated_bypass (fun s => s ++ "zz") (fun s => s)).1 "सीता" (by decide)

/-!
## Claim C3 — in-line age validation
-/

/-- C3: for every segmenter match, if the parsed age lies in [18, 120] the
match is processed by `parse_middle_text` (and may yield a record); if the
age lies outside [18, 120] the match is silently discarded — the result is
exactly the result of processing the remaining matches, with no error and
no record from the discarded match. -/
theorem c3_age_gate (ext : String → String) (headerInfo : HeaderInfo)
    (m : RawMatch) (rest : List RawMatch) :
    (¬(18 ≤ pyStrToNat m.ageStr ∧ pyStrToNat m.ageStr ≤ 120) →
      processMatches ext headerInfo (m :: rest) = processMatches ext headerInfo rest) ∧
    ((18 ≤ pyStrToNat m.ageStr ∧ pyStrToNat m.ageStr ≤ 120) →
      processMatches ext headerInfo (m :: rest) =
        (match parse_middle_text ext m.srNo (⟨stripEnds m.middle.data⟩ : String)
            m.gender (pyStrToNat m.ageStr) headerInfo with
         | some r => [r]
         | none => []) ++ processMatches ext headerInfo rest) := by
  constructor
  · intro hage
    have hcond : pyStrToNat m.ageStr < 18 ∨ 120 < pyStrToNat m.ageStr := by omega
    rw [processMatches, if_pos hcond]
  · intro hage
    have hcond : ¬(pyStrToNat m.ageStr < 18 ∨ 120 < pyStrToNat m.ageStr) := by omega
    rw [processMatches, if_neg hcond]
    cases parse_middle_text ext m.srNo (⟨stripEnds m.middle.data⟩ : String)
        m.gender (pyStrToNat m.ageStr) headerInfo with
    | some r => rfl
    | none => rfl

/-- Witness for C3: age 17 and age 121 matches are discarded, an age 46
match is processed into a record. -/
theorem c3_age_gate_witness :
    processMatches (fun s => s) (extract_header_info "")
      [{ srNo := "1", middle := "कख गख", gender := "पु", ageStr := "17" }] = [] ∧
    processMatches (fun s => s) (extract_header_info "")
      [{ srNo := "1", middle := "कख गख", gender := "पु", ageStr := "121" }] = [] ∧
    processMatches (fun s => s) (extract_header_info "")
      [{ srNo := "49", middle := "कृष्णा राजकुमार रामपाल सिंहह", gender := "पु",
         ageStr := "46" }] =
      [{ age := 46, gender := "M", srNo := "49", voterName := "",
         voterNameHindi := "राजकुमार", voterNameLower := "",
         fatherOrHusbandName := "", fatherOrHusbandNameHindi := "रामपाल सिंहह",
         fatherOrHusbandNameLower := "", houseNo := "कृष्णा",
         bodyNumber := "1-Ghaziabad", district := "023-Ghaziabad",
         locality := "Krishyan Nagar", partNumber := "4",
         pollingCenter := "8-Cent Paul Public School Krishan Nagar Babu",
         roomNumber := "5", sectionNumber := "4",
         ward := "3-Babu Krishan Nagar" }] := by
  refine ⟨?_, ?_, ?_⟩
  · exact (c3_age_gate (fun s => s) (extract_header_info "")
      { srNo := "1", middle := "कख गख", gender := "पु", ageStr := "17" } []).1 (by decide)
  · exact (c3_age_gate (fun s => s) (extract_header_info "")
      { srNo := "1", middle := "कख गख", gender := "पु", ageStr := "121" } []).1 (by decide)
  · have h := (c3_age_gate (fun s => s) (extract_header_info "")
      { srNo := "49", middle := "कृष्णा राजकुमार रामपाल सिंहह", gender := "पु",
        ageStr := "46" } []).2 (by decide)
    rw [h]
    decide

/-!
## Claim C4 — glyph repair idempotence (corrected)

`clean_cid_text` is not idempotent: whitespace normalisation runs after the
broken-sequence substitutions, so a second application can apply spaced
fixes that the first pass could not see.
-/

/-- C4 counterexample: `क², ²ा` with a double space.  The first pass only
collapses the whitespace (yielding `क ा`), and the second pass then applies
the spaced broken-sequence fix `क ा → का`. -/
theorem c4_counterexample :
    clean_cid_text (clean_cid_text "क  ा") ≠ clean_cid_text "क  ा" ∧
    clean_cid_text "क  ा" = "क ा" ∧
    clean_cid_text (clean_cid_text "क  ा") = "का" := by
  refine ⟨?_, by decide, by decide⟩
  decide

/-- C4 (amended): `clean_cid_text` is idempotent on every input whose
repaired form contains no `(cid:` token and no occurrence of a (non-trivial)
broken-sequence key; in general a second application can differ, because
the whitespace collapse runs after the substitution passes and can create
new matches for the spaced fix keys (see the counterexample). -/
theorem c4_amended_idempotent (x : String)
    (hcid : occursIn "(cid:".data (clean_cid_text x).data = false)
    (hfix : ∀ p ∈ brokenCharFixes, p.1 = p.2 ∨
      occursIn p.1.data (clean_cid_text x).data = false) :
    clean_cid_text (clean_cid_text x) = clean_cid_text x := by
  by_cases hx : x = ""
  · rw [hx]
    decide
  · set y := clean_cid_text x with hy
    by_cases hyy : y = ""
    · rw [hyy]
      decide
    · have hmap : applyTable cidMap y.data = y.data := by
        apply applyTable_id
        intro p hp
        refine Or.inr ?_
        cases hocc : occursIn p.1.data y.data with
        | false => rfl
        | true =>
          have := occursIn_of_occursIn_of_isPrefixOf (cidMap_keys_cid p hp) hocc
          rw [this] at hcid
          exact absurd hcid (by simp)
      have hrm : removeCidTokens y.data = y.data := removeCidTokens_id hcid
      have hfx : applyTable brokenCharFixes y.data = y.data := applyTable_id _ _ hfix
      obtain ⟨z, hz⟩ : ∃ z, y.data = normalizeWs z := by
        refine ⟨applyTable brokenCharFixes (removeCidTokens (applyTable cidMap x.data)), ?_⟩
        rw [hy, clean_cid_text, if_neg hx]
      have hws : normalizeWs y.data = y.data := by
        rw [hz]
        exact normalizeWs_idem z
      rw [clean_cid_text, if_neg hyy, hmap, hrm, hfx, hws]

/-- Witness for C4 (amended) at `राम कुमार`, whose repaired form contains
no cid token and no broken-sequence key. -/
theorem c4_amended_idempotent_witness :
    clean_cid_text (clean_cid_text "राम कुमार") = clean_cid_text "राम कुमार" :=
  c4_amended_idempotent "राम कुमार" (by decide) (by decide)

/-!
## Claim C2 — deduplication keeps the first valid record per key
-/

theorem dedupLoop_eq_spec (l : List VoterRecord) :
    ∀ (seen : List (String × String)) (pre : List VoterRecord),
      (∀ k, k ∈ seen ↔ ∃ p ∈ pre, validRecord p = true ∧ dedupKey p = k) →
      dedupLoop l seen = dedupSpecGo pre l := by
  induction l with
  | nil => intro seen pre _; rfl
  | cons v rest ih =>
    intro seen pre hinv
    by_cases hv : validRecord v = true
    · by_cases hk : dedupKey v ∈ seen
      · have hex : ∃ p ∈ pre, validRecord p = true ∧ dedupKey p = dedupKey v :=
          (hinv _).mp hk
        rw [dedupLoop, if_pos hv, if_pos hk]
        rw [dedupSpecGo, if_neg (fun hcond => hcond.2 hex)]
        refine ih seen (pre ++ [v]) (fun k => ?_)
        constructor
        · intro hkk
          obtain ⟨p, hp, h1, h2⟩ := (hinv k).mp hkk
          exact ⟨p, by simp [hp], h1, h2⟩
        · intro ⟨p, hp, h1, h2⟩
          rcases List.mem_append.mp hp with hp | hp
          · exact (hinv k).mpr ⟨p, hp, h1, h2⟩
          · have : p = v := by simpa using hp
            subst this
            rw [← h2]
            exact hk
      · rw [dedupLoop, if_pos hv, if_neg hk]
        rw [dedupSpecGo, if_pos ⟨hv, fun hex => hk ((hinv _).mpr hex)⟩]
        congr 1
        refine ih (dedupKey v :: seen) (pre ++ [v]) (fun k => ?_)
        constructor
        · intro hkk
          rcases List.mem_cons.mp hkk with rfl | hkk
          · exact ⟨v, by simp, hv, rfl⟩
          · obtain ⟨p, hp, h1, h2⟩ := (hinv k).mp hkk
            exact ⟨p, by simp [hp], h1, h2⟩
        · intro ⟨p, hp, h1, h2⟩
          rcases List.mem_append.mp hp with hp | hp
          · exact List.mem_cons_of_mem _ ((hinv k).mpr ⟨p, hp, h1, h2⟩)
          · have : p = v := by simpa using hp
            subst this
            rw [← h2]
            exact List.mem_cons_self _ _
    · rw [dedupLoop, if_neg hv]
      rw [dedupSpecGo, if_neg (fun hcond => hv hcond.1)]
      refine ih seen (pre ++ [v]) (fun k => ?_)
      constructor
      · intro hkk
        obtain ⟨p, hp, h1, h2⟩ := (hinv k).mp hkk
        exact ⟨p, by simp [hp], h1, h2⟩
      · intro ⟨p, hp, h1, h2⟩
        rcases List.mem_append.mp hp with hp | hp
        · exact (hinv k).mpr ⟨p, hp, h1, h2⟩
        · have : p = v := by simpa using hp
          subst this
          exact absurd h1 hv

theorem dedupLoop_distinct_keys (l : List VoterRecord) :
    ∀ seen,
      (dedupLoop l seen).Pairwise (fun a b => dedupKey a ≠ dedupKey b) ∧
      ∀ r ∈ dedupLoop l seen, dedupKey r ∉ seen := by
  induction l with
  | nil => intro seen; exact ⟨List.Pairwise.nil, by simp [dedupLoop]⟩
  | cons v rest ih =>
    intro seen
    by_cases hv : validRecord v = true
    · by_cases hk : dedupKey v ∈ seen
      · rw [dedupLoop, if_pos hv, if_pos hk]
        exact ih seen
      · rw [dedupLoop, if_pos hv, if_neg hk]
        have ihr := ih (dedupKey v :: seen)
        refine ⟨List.Pairwise.cons (fun b hb heq => ?_) ihr.1, fun r hr => ?_⟩
        · exact (ihr.2 b hb) (heq ▸ List.mem_cons_self _ _)
        · rcases List.mem_cons.mp hr with rfl | hr2
          · exact hk
          · exact fun hmem => (ihr.2 r hr2) (List.mem_cons_of_mem _ hmem)
    · rw [dedupLoop, if_neg hv]
      exact ih seen

/-- C2: the deduplication step of `process_pdf_file` computes exactly the
specification mapping — for each `(srNo, voterNameLower)` key the first
valid record in scan order is kept and every later record with the same key
is discarded; the output never carries two records with the same key; and
two valid records that differ in their key both survive. -/
theorem c2_dedup_first_valid (l : List VoterRecord) :
    dedup_records l = dedup_spec l ∧
    (dedup_records l).Pairwise (fun a b => dedupKey a ≠ dedupKey b) ∧
    ∀ r1 r2 : VoterRecord, validRecord r1 = true → validRecord r2 = true →
      dedupKey r1 ≠ dedupKey r2 → dedup_records [r1, r2] = [r1, r2] := by
  refine ⟨dedupLoop_eq_spec l [] [] (by simp), (dedupLoop_distinct_keys l []).1, ?_⟩
  intro r1 r2 h1 h2 hne
  unfold dedup_records
  rw [dedupLoop, if_pos h1, if_neg (by simp)]
  rw [dedupLoop, if_pos h2, if_neg (by simp; exact fun h => hne (Eq.symm h))]
  rfl

/-- Witness for C2: two concrete valid records with distinct keys both
survive deduplication. -/
theorem c2_dedup_first_valid_witness :
    validRecord
      { age := 30, gender := "M", srNo := "1", voterName := "Ram",
        voterNameHindi := "राम", voterNameLower := "ram",
        fatherOrHusbandName := "", fatherOrHusbandNameHindi := "",
        fatherOrHusbandNameLower := "", houseNo := "", bodyNumber := "",
        district := "", locality := "", partNumber := "", pollingCenter := "",
        roomNumber := "", sectionNumber := "", ward := "" } = true ∧
    dedup_records
      [{ age := 30, gender := "M", srNo := "1", voterName := "Ram",
         voterNameHindi := "राम", voterNameLower := "ram",
         fatherOrHusbandName := "", fatherOrHusbandNameHindi := "",
         fatherOrHusbandNameLower := "", houseNo := "", bodyNumber := "",
         district := "", locality := "", partNumber := "", pollingCenter := "",
         roomNumber := "", sectionNumber := "", ward := "" },
       { age := 40, gender := "F", srNo := "2", voterName := "Sita",
         voterNameHindi := "सीता", voterNameLower := "sita",
         fatherOrHusbandName := "", fatherOrHusbandNameHindi := "",
         fatherOrHusbandNameLower := "", houseNo := "", bodyNumber := "",
         district := "", locality := "", partNumber := "", pollingCenter := "",
         roomNumber := "", sectionNumber := "", ward := "" }] =
      [{ age := 30, gender := "M", srNo := "1", voterName := "Ram",
         voterNameHindi := "राम", voterNameLower := "ram",
         fatherOrHusbandName := "", fatherOrHusbandNameHindi := "",
         fatherOrHusbandNameLower := "", houseNo := "", bodyNumber := "",
         district := "", locality := "", partNumber := "", pollingCenter := "",
         roomNumber := "", sectionNumber := "", ward := "" },
       { age := 40, gender := "F", srNo := "2", voterName := "Sita",
         voterNameHindi := "सीता", voterNameLower := "sita",
         fatherOrHusbandName := "", fatherOrHusbandNameHindi := "",
         fatherOrHusbandNameLower := "", houseNo := "", bodyNumber := "",
         district := "", locality := "", partNumber := "", pollingCenter := "",
         roomNumber := "", sectionNumber := "", ward := "" }] := by
  refine ⟨by decide, ?_⟩
  exact (c2_dedup_first_valid []).2.2 _ _ (by decide) (by decide) (by decide)

/-!
## Claim C7 — gender normalisation
-/

theorem tryGenderList_mem :
    ∀ (gs : List String) (s : List Char) {g : String} {a rest : List Char},
      tryGenderList gs s = some (g, a, rest) → g ∈ gs := by
  intro gs
  induction gs with
  | nil => intro s g a rest h; exact absurd h (by simp [tryGenderList])
  | cons x xs ih =>
    intro s g a rest h
    rw [tryGenderList] at h
    split at h
    · split at h
      · cases h
        exact List.mem_cons_self _ _
      · exact List.mem_cons_of_mem _ (ih s h)
    · exact List.mem_cons_of_mem _ (ih s h)

theorem matchTail_gender {s : List Char} {g age : String} {rest : List Char}
    (h : matchTail s = some (g, age, rest)) : g ∈ genderAlternatives := by
  have h' : (if (s.takeWhile isPySpace) = ([] : List Char) then none
      else
        match tryGenderList genderAlternatives (s.dropWhile isPySpace) with
        | some (g, age, rest) => some (g, (⟨age⟩ : String), rest)
        | none => none) = some (g, age, rest) := h
  clear h
  split at h'
  · cases h'
  · split at h'
    · cases h'
      exact tryGenderList_mem _ _ (by assumption)
    · cases h'

theorem tryMiddleFrom_gender :
    ∀ (s acc : List Char) {mid : List Char} {g age : String} {after : List Char},
      tryMiddleFrom acc s = some (mid, g, age, after) → g ∈ genderAlternatives := by
  intro s
  induction s with
  | nil => intro acc mid g age after h; exact absurd h (by simp [tryMiddleFrom])
  | cons c rest ih =>
    intro acc mid g age after h
    rw [tryMiddleFrom] at h
    split at h
    · cases h
    · split at h
      · cases h
        exact matchTail_gender (by assumption)
      · exact ih (acc ++ [c]) h

theorem tryWsWidth_gender :
    ∀ (w : Nat) (r : List Char) {mid : List Char} {g age : String} {after : List Char},
      tryWsWidth r w = some (mid, g, age, after) → g ∈ genderAlternatives := by
  intro w
  induction w with
  | zero => intro r mid g age after h; exact absurd h (by simp [tryWsWidth])
  | succ n ih =>
    intro r mid g age after h
    rw [tryWsWidth] at h
    split at h
    case h_1 p heq =>
      cases h
      exact tryMiddleFrom_gender _ _ heq
    case h_2 => exact ih r h

theorem matchVoterAt_gender {s : List Char} {m : RawMatch} {after : List Char}
    (h : matchVoterAt s = some (m, after)) : m.gender ∈ genderAlternatives := by
  have h' : (if (s.takeWhile isPyDigit) = ([] : List Char) then
        (none : Option (RawMatch × List Char))
      else
        (match tryWsWidth (s.dropWhile isPyDigit)
            (((s.dropWhile isPyDigit).takeWhile isPySpace).length) with
        | some (mid, g, age, after2) =>
          some ({ srNo := (⟨s.takeWhile isPyDigit⟩ : String),
                  middle := (⟨mid⟩ : String), gender := g, ageStr := age },
                after2)
        | none => none)) = some (m, after) := h
  clear h
  split at h'
  · cases h'
  · split at h'
    · cases h'
      exact tryWsWidth_gender _ _ (by assumption)
    · cases h'

theorem finditerVoterF_gender :
    ∀ (fuel : Nat) (s : List Char) (m : RawMatch),
      m ∈ finditerVoterF fuel s → m.gender ∈ genderAlternatives := by
  intro fuel
  induction fuel with
  | zero => intro s m h; exact absurd h (by simp [finditerVoterF])
  | succ n ih =>
    intro s m h
    cases s with
    | nil => exact absurd h (by simp [finditerVoterF])
    | cons c rest =>
      rw [finditerVoterF] at h
      cases hm : matchVoterAt (c :: rest) with
      | some p =>
        obtain ⟨m', after⟩ := p
        rw [hm] at h
        rcases List.mem_cons.mp h with rfl | h2
        · exact matchVoterAt_gender hm
        · exact ih after m h2
      | none =>
        rw [hm] at h
        exact ih rest m h

theorem parse_middle_text_gender {ext : String → String} {headerInfo : HeaderInfo}
    {srNo mid g : String} {a : Nat} {r : VoterRecord}
    (h : parse_middle_text ext srNo mid g a headerInfo = some r) :
    r.gender = (if g = "पु" ∨ g = "पुरुष" then "M" else "F") := by
  unfold parse_middle_text at h
  split at h
  · cases h
  · split at h
    · cases h
    · split at h
      · cases h
      · cases h
        rfl

theorem processMatches_gender :
    ∀ (ms : List RawMatch) (ext : String → String) (headerInfo : HeaderInfo)
      (r : VoterRecord), r ∈ processMatches ext headerInfo ms →
      r.gender = "M" ∨ r.gender = "F" := by
  intro ms
  induction ms with
  | nil => intro ext headerInfo r h; exact absurd h (by simp [processMatches])
  | cons m rest ih =>
    intro ext headerInfo r h
    rw [processMatches] at h
    split at h
    · exact ih ext headerInfo r h
    · split at h
      case h_1 r' heq =>
        rcases List.mem_cons.mp h with rfl | h2
        · rw [parse_middle_text_gender heq]
          by_cases hc : m.gender = "पु" ∨ m.gender = "पुरुष"
          · left; rw [if_pos hc]
          · right; rw [if_neg hc]
        · exact ih ext headerInfo r h2
      case h_2 => exact ih ext headerInfo r h

/-- C7: (a) every match the segmenter produces carries one of the five
recognised gender-marker tokens `पु`, `म`, `स्त्री`, `पुरुष`, `फ` — a candidate
with any other token never exists, hence never produces a record; (b) a
record built from a match maps `पु`/`पुरुष` to `M` and every other marker
(i.e. `म`, `स्त्री`, `फ`) to `F`; (c) every record produced by
`extract_voters_from_line` has gender `M` or `F`. -/
theorem c7_gender_normalization :
    (∀ (line : String) (m : RawMatch), m ∈ finditerVoter line →
      m.gender ∈ genderAlternatives) ∧
    (∀ (ext : String → String) (headerInfo : HeaderInfo) (srNo mid g : String)
      (a : Nat) (r : VoterRecord),
      parse_middle_text ext srNo mid g a headerInfo = some r →
      r.gender = (if g = "पु" ∨ g = "पुरुष" then "M" else "F")) ∧
    (∀ (ext : String → String) (line : String) (headerInfo : HeaderInfo)
      (r : VoterRecord), r ∈ extract_voters_from_line ext line headerInfo →
      r.gender = "M" ∨ r.gender = "F") := by
  refine ⟨?_, ?_, ?_⟩
  · intro line m h
    exact finditerVoterF_gender _ _ m h
  · intro ext headerInfo srNo mid g a r h
    exact parse_middle_text_gender h
  · intro ext line headerInfo r h
    rw [extract_voters_from_line] at h
    split at h
    · exact absurd h (by simp)
    · exact processMatches_gender _ ext headerInfo r h

/-- Witness for C7: the two scenario matches carry the tokens `पु` and `म`,
the records built from them have genders `M` and `F`, and a concrete
extracted record's gender is `M`. -/
theorem c7_gender_normalization_witness :
    ({ srNo := "49", middle := "कृष्णा राजकुमार रामपाल सिंहह", gender := "पु",
       ageStr := "46" } : RawMatch).gender ∈ genderAlternatives ∧
    ({ age := 46, gender := "M", srNo := "49", voterName := "",
       voterNameHindi := "राजकुमार", voterNameLower := "",
       fatherOrHusbandName := "", fatherOrHusbandNameHindi := "रामपाल सिंहह",
       fatherOrHusbandNameLower := "", houseNo := "कृष्णा",
       bodyNumber := "1-Ghaziabad", district := "023-Ghaziabad",
       locality := "Krishyan Nagar", partNumber := "4",
       pollingCenter := "8-Cent Paul Public School Krishan Nagar Babu",
       roomNumber := "5", sectionNumber := "4",
       ward := "3-Babu Krishan Nagar" } : VoterRecord).gender =
      (if ("पु" : String) = "पु" ∨ ("पु" : String) = "पुरुष" then "M" else "F") := by
  constructor
  · exact c7_gender_normalization.1 scenarioCleaned
      { srNo := "49", middle := "कृष्णा राजकुमार रामपाल सिंहह", gender := "पु",
        ageStr := "46" } (by decide)
  · exact c7_gender_normalization.2.1 (fun s => s) (extract_header_info "")
      "49" "कृष्णा राजकुमार रामपाल सिंहह" "पु" 46 _ (by decide)

/-!
## Claim C1 — the scenario line
-/

/-- C1: for every external transliterator and every `HeaderInfo`, the
scenario line `49 कृष्णा राजकुमार रामपाल सिसंह पु 46 50 नगर सुनिता राजकुमार म 43`
yields exactly two candidate voter records — the first with `srNo = "49"`,
age 46 and gender `M`, the second with `srNo = "50"`, age 43 and
gender `F`. -/
theorem c1_scenario_two_records (ext : String → String) (headerInfo : HeaderInfo) :
    extract_voters_from_line ext scenarioLine headerInfo =
      [scenarioRec1 ext headerInfo, scenarioRec2 ext headerInfo] ∧
    (scenarioRec1 ext headerInfo).srNo = "49" ∧
    (scenarioRec1 ext headerInfo).age = 46 ∧
    (scenarioRec1 ext headerInfo).gender = "M" ∧
    (scenarioRec2 ext headerInfo).srNo = "50" ∧
    (scenarioRec2 ext headerInfo).age = 43 ∧
    (scenarioRec2 ext headerInfo).gender = "F" := by
  refine ⟨?_, rfl, rfl, rfl, rfl, rfl, rfl⟩
  have hguard : ¬(scenarioLine = "" ∨ scenarioLine.length < 20) := by decide
  have hclean : clean_cid_text scenarioLine = scenarioCleaned := by decide
  have hfind : finditerVoter scenarioCleaned =
      [{ srNo := "49", middle := "कृष्णा राजकुमार रामपाल सिंहह", gender := "पु",
         ageStr := "46" },
       { srNo := "50", middle := "नगर सुनिता राजकुमार", gender := "म",
         ageStr := "43" }] := by decide
  rw [extract_voters_from_line, if_neg hguard, hclean, hfind]
  rfl

end VoterEngine
